import Mathlib

/-!
A verification development for the execution core of a SQL-over-arbitrary-sources
bridge: the dynamic value model (`value/value.go`), the projection operator
(`exec/projection.go`) and the join operators (`exec/join.go`).

The Go source is shallowly embedded: pure functions become Lean functions,
the per-message bodies of the task loops become explicit functions over lists
of messages, Go `int64` becomes `Int`, Go slices become `List`, Go maps become
association lists (with insertion order standing in for the unspecified Go map
iteration order; no claim below depends on that order), and operations that can
panic return `Option` with `none` for the panic.

External collaborators (the `datasource`, `expr` and `vm` packages) are not part
of the source tree; where an operator calls into them the call is modelled from
the stated contract of the specification, and the doc comment of the definition
says so.
-/

namespace QL

/-! ## Value model (from `src/value/value.go`)

The fragment of the `Value` union exercised by the claims: Nil, Error, Bool,
Int, String, Strings and Time.  The Time payload is the wrapped `time.Time`
represented by its Unix-nanosecond count (`UnixNano()`), which is the only view
of it the source reads. -/

inductive Value where
  | nilValue : Value
  | errorValue (v : String) : Value
  | boolValue (v : Bool) : Value
  | intValue (v : Int) : Value
  | stringValue (v : String) : Value
  | stringsValue (v : List String) : Value
  | timeValue (unixNano : Int) : Value
  deriving DecidableEq, Repr

/-- The `ToString` of each variant, from `value.go`:
`NilValue.ToString = ""`, `ErrorValue.ToString = ""`,
`BoolValue.ToString = strconv.FormatBool`, `IntValue.ToString = strconv.FormatInt(v,10)`,
`StringValue.ToString = v`, `StringsValue.ToString = strings.Join(v, ",")`,
`TimeValue.ToString = strconv.FormatInt(m.Int(), 10)` where
`TimeValue.Int() = UnixNano() / 1e6` (Go `int64` division truncates toward zero,
hence `Int.tdiv`). -/
def Value.ToString : Value → String
  | .nilValue => ""
  | .errorValue _ => ""
  | .boolValue b => if b then "true" else "false"
  | .intValue i => toString i
  | .stringValue s => s
  | .stringsValue xs => String.intercalate "," xs
  | .timeValue ns => toString (Int.tdiv ns 1000000)

/-- The standalone `TimeValue` struct of `value.go`; `V` is the wrapped
`time.Time`, represented by its `UnixNano()` integer. -/
structure TimeValue where
  V : Int
  deriving DecidableEq, Repr

/-- Go source: `func (m TimeValue) Int() int64 { return m.V.UnixNano() / 1e6 }`.
The untyped constant `1e6` is converted to `int64`, so this is Go integer
division, which truncates toward zero. -/
def TimeValue.Int (m : TimeValue) : Int := Int.tdiv m.V 1000000

/-- Go source: `func (m TimeValue) Float() float64 { return float64(m.V.UnixNano() / 1e6) }`:
the same integer division, then a conversion to `float64`. -/
def TimeValue.Float (m : TimeValue) : Float := Float.ofInt (Int.tdiv m.V 1000000)

/-- Go source: `func (m TimeValue) ToString() string { return strconv.FormatInt(m.Int(), 10) }`. -/
def TimeValue.ToString (m : TimeValue) : String := toString (TimeValue.Int m)

/-! ## Rows and messages

A `driver.Value` is the Go raw cell of interface type.  It is represented here as
`Option Value`: `none` is the Go `nil` raw value, `some v` a non-nil raw value
identified with its lifted `Value` form (the lifting of §3.1). -/

/-- A raw row cell (`driver.Value`). `none` models Go `nil`. -/
abbrev DriverVal := Option Value

/-- The fragment of the `NewValue` function of `value.go` reaching this representation of raw
cells: `case nil: return NilValueVal` and `case Value: return val`
(pass-through). -/
def NewValue : DriverVal → Value
  | none => .nilValue
  | some v => v

/-- Go slice read `xs[i]` with an `int` index: panics (`none`) unless
`0 ≤ i < len xs`. -/
def listGetInt {α : Type} (xs : List α) (i : Int) : Option α :=
  if h : 0 ≤ i ∧ i < (xs.length : Int) then
    some (xs.get ⟨i.toNat, by omega⟩)
  else
    none

/-- Go slice write `xs[i] = v` for an index already known to be in range
(positions are counted from the head). -/
def listSetInt {α : Type} (xs : List α) (i : Int) (v : α) : List α :=
  xs.set i.toNat v

/-- Modelled from the spec: `datasource.SqlDriverMessageMap` (the `datasource`
package is not under `src/`).  Per §3.2 it is
`{ id: uint64, values: []Raw, colIndex: map[string→int], key: string }`. -/
structure SqlDriverMessageMap where
  IdVal : Nat
  values : List DriverVal
  colIndex : List (String × Int)
  key : String
  deriving DecidableEq, Repr

/-- Modelled from the spec: `Key() → string` returns the hash-key slot of the
message (§4.2). -/
def SqlDriverMessageMap.Key (m : SqlDriverMessageMap) : String := m.key

/-- Modelled from the spec: `SetKeyHashed(k string)` stores the composite
string in the key slot of the message; "`JoinKey` does **not** hash the key itself;
the string form is what downstream consumers hash/compare" (§4.5), and the
scenario 3 of the spec expects `Key()` to equal the composite string. -/
def SqlDriverMessageMap.SetKeyHashed (m : SqlDriverMessageMap) (k : String) :
    SqlDriverMessageMap :=
  { m with key := k }

/-- Modelled from the spec: `Row() → map<alias,Raw>` "derived from values +
colIndex" (§4.2).  Aliases whose index is out of range produce no entry. -/
def SqlDriverMessageMap.Row (m : SqlDriverMessageMap) : List (String × DriverVal) :=
  m.colIndex.filterMap fun p => (listGetInt m.values p.2).map fun v => (p.1, v)

/-- A `datasource.Message` arriving at a join task: either a
`*SqlDriverMessageMap` or a value of some other dynamic type, of which the
operators only ever inspect the type name (`%T`). -/
inductive JMessage where
  | sqlMsg (m : SqlDriverMessageMap) : JMessage
  | otherMsg (typeName : String) : JMessage
  deriving DecidableEq, Repr

/-! ## JoinKey (from `src/exec/join.go`, `JoinKey.Run`)

`vm.Eval(reader, node) → (Value, ok)` is an external collaborator; it is a
parameter `eval : SqlDriverMessageMap → Node → Option Value` with `none` for
`ok == false` (on failure the source only logs the pair, and the Go value half
of a failed evaluation is the `nil` interface). -/

/-- The `vals` loop of `JoinKey.Run` (join.go:85-94): evaluate each join node
in order against the row, taking the `ToString()` form of each result;
the first failed evaluation aborts (`break msgTypeSwitch`). -/
def joinKeyEvalVals {Node : Type} (eval : SqlDriverMessageMap → Node → Option Value)
    (mt : SqlDriverMessageMap) : List Node → Option (List String)
  | [] => some []
  | node :: rest =>
    match eval mt node with
    | some joinVal => (joinKeyEvalVals eval mt rest).map fun vs => joinVal.ToString :: vs
    | none => none

/-- The delimiter of `strings.Join(vals, string(byte(0)))`: the single NUL byte. -/
def nulDelim : String := String.mk [Char.ofNat 0]

/-- The `*SqlDriverMessageMap` arm of `JoinKey.Run` (join.go:84-97) for one
message: on success the composite key is stored via `SetKeyHashed` and the same
message is forwarded (`some`); a failed node evaluation drops the message
(`none`). -/
def joinKeyMsg {Node : Type} (eval : SqlDriverMessageMap → Node → Option Value)
    (joinNodes : List Node) (mt : SqlDriverMessageMap) : Option SqlDriverMessageMap :=
  match joinKeyEvalVals eval mt joinNodes with
  | some vals => some (mt.SetKeyHashed (String.intercalate nulDelim vals))
  | none => none

/-- The receive loop of `JoinKey.Run` (join.go:70-103) over a finite input stream:
returns the forwarded messages in order, paired with the type name of the
non-`SqlDriverMessageMap` message that made the task return an error, if any
(`return fmt.Errorf("To use JoinKey must use SqlDriverMessageMap but got %T")`).
Channel closure (the end of the list) returns `nil` (`none`). -/
def joinKeyLoop {Node : Type} (eval : SqlDriverMessageMap → Node → Option Value)
    (joinNodes : List Node) : List JMessage → List SqlDriverMessageMap × Option String
  | [] => ([], none)
  | .sqlMsg mt :: rest =>
    match joinKeyMsg eval joinNodes mt with
    | some keyed =>
      let out := joinKeyLoop eval joinNodes rest
      (keyed :: out.1, out.2)
    | none => joinKeyLoop eval joinNodes rest
  | .otherMsg typeName :: _ => ([], some typeName)

/-! A miniature expression language standing in for the external `expr.Node`
trees in concrete scenarios.  `Modelled from the spec:` the evaluator contract
is `Eval(reader, node) → (Value, ok)` (§6); identifiers read the alias map of the
row, and `eqZero` is the `a == 0` guard of the projection scenario of the spec. -/

inductive MiniNode where
  | ident (name : String) : MiniNode
  | eqZero (name : String) : MiniNode
  deriving DecidableEq, Repr

/-- Modelled from the spec: a concrete `vm.Eval` for `MiniNode` over a
`SqlDriverMessageMap` reader. -/
def miniEval (mt : SqlDriverMessageMap) : MiniNode → Option Value
  | .ident name =>
    match mt.Row.lookup name with
    | some (some v) => some v
    | _ => none
  | .eqZero name =>
    match mt.Row.lookup name with
    | some (some (.intValue i)) => some (.boolValue (i = 0))
    | _ => none

/-! ## Columns and the Projection operator (from `src/exec/projection.go`)

The column descriptor `expr.Column` is an external contract (§6):
`Column{As string, Key() string, SourceIndex, ParentIndex int, Star bool,
Guard Node, Expr Node}`.  `Guard` may be absent (`nil`). -/

/-- Modelled from the spec: the `expr.Column` contract of §6.  `Key` stands for
the `Key()` method. -/
structure Column (Node : Type) where
  As : String
  Key : String
  SourceIndex : Int
  ParentIndex : Int
  Star : Bool
  Guard : Option Node
  Expr : Node
  deriving DecidableEq, Repr

/-- Modelled from the spec: `datasource.ContextSimple`, the fresh name-keyed
write context produced by projection; represented as the list of `Put` calls in
order (§4.2). -/
abbrev ContextSimple := List (String × Value)

/-- Modelled from the spec: `ContextSimple.Put(col, readerMsg, v)` "writes
under `col.As` (or derived key if `As` is empty)" (§4.2). -/
def ctxPut (ctx : ContextSimple) (colAs colKey : String) (v : Value) : ContextSimple :=
  ctx ++ [(if colAs = "" then colKey else colAs, v)]

/-- The guard check shared by both projection branches
(projection.go:59-73 and 100-114): when `col.Guard` is set it is evaluated and
the column is suppressed exactly when the result is `BoolValue(false)`; any
other outcome — including a failed evaluation, whose Go value half is the `nil`
interface and hence matches no case of the type switch — leaves the column
included (the failure is only logged). -/
def guardFalse {R Node : Type} (eval : R → Node → Option Value) (mt : R)
    (guard : Option Node) : Bool :=
  match guard with
  | none => false
  | some g =>
    match eval mt g with
    | some (.boolValue false) => true
    | _ => false

/-- One column of the `*SqlDriverMessageMap` arm of
`Projection.projectionEvaluator` (projection.go:54-90): skip when
`ParentIndex < 0`; then the guard check; then `Star` expansion of `Row()`
(each raw value lifted with `value.NewValue`); otherwise evaluate `col.Expr`
and `Put` on success (a `nil` value with `ok == true` is also `Put`), skip the
column on failure. -/
def projectSqlStep {Node : Type} (eval : SqlDriverMessageMap → Node → Option Value)
    (mt : SqlDriverMessageMap) (ctx : ContextSimple) (col : Column Node) : ContextSimple :=
  if col.ParentIndex < 0 then ctx
  else if guardFalse eval mt col.Guard then ctx
  else if col.Star then
    mt.Row.foldl (fun c p => ctxPut c p.1 p.1 (NewValue p.2)) ctx
  else
    match eval mt col.Expr with
    | some v => ctxPut ctx col.As col.Key v
    | none => ctx

/-- The `*SqlDriverMessageMap` arm of the projection evaluator: the column loop
over a fresh write context. -/
def projectSqlMsg {Node : Type} (eval : SqlDriverMessageMap → Node → Option Value)
    (columns : List (Column Node)) (mt : SqlDriverMessageMap) : ContextSimple :=
  columns.foldl (projectSqlStep eval mt) []

/-- Modelled from the spec: `datasource.ContextUrlValues`, the CGI-style
name-keyed read context; `row` is its `Row()` view. -/
structure ContextUrlValues where
  row : List (String × Value)
  deriving DecidableEq, Repr

/-- One column of the `*ContextUrlValues` arm of `Projection.projectionEvaluator`
(projection.go:98-128): the guard check, `Star` expansion (values written as
they are), and `Expr` evaluation with `Put` on success.  This arm performs no
`ParentIndex` check. -/
def projectUrlStep {Node : Type} (eval : ContextUrlValues → Node → Option Value)
    (mt : ContextUrlValues) (ctx : ContextSimple) (col : Column Node) : ContextSimple :=
  if guardFalse eval mt col.Guard then ctx
  else if col.Star then
    mt.row.foldl (fun c p => ctxPut c p.1 p.1 p.2) ctx
  else
    match eval mt col.Expr with
    | some v => ctxPut ctx col.As col.Key v
    | none => ctx

/-- The `*ContextUrlValues` arm of the projection evaluator. -/
def projectUrlValues {Node : Type} (eval : ContextUrlValues → Node → Option Value)
    (columns : List (Column Node)) (mt : ContextUrlValues) : ContextSimple :=
  columns.foldl (projectUrlStep eval mt) []

/-- A `datasource.Message` arriving at the projection task. -/
inductive PMessage where
  | sqlMsg (m : SqlDriverMessageMap) : PMessage
  | urlMsg (m : ContextUrlValues) : PMessage
  | otherMsg (typeName : String) : PMessage
  deriving DecidableEq, Repr

/-- The projection message handler (projection.go:38-140).  The result pairs
the list of messages sent on the outbound channel for this input — each sent
message being `some` write context or the `nil` interface (`none`), since the
initial `var outMsg datasource.Message` is sent even when no arm assigned it —
with the boolean the handler returns to the task loop (`true` keeps the loop
running).  The final `select` is taken with the outbound channel ready. -/
def projectionHandler {Node : Type}
    (evalS : SqlDriverMessageMap → Node → Option Value)
    (evalU : ContextUrlValues → Node → Option Value)
    (columns : List (Column Node)) (msg : PMessage) :
    List (Option ContextSimple) × Bool :=
  match msg with
  | .sqlMsg mt => ([some (projectSqlMsg evalS columns mt)], true)
  | .urlMsg mt => ([some (projectUrlValues evalU columns mt)], true)
  | .otherMsg _ => ([none], true)

/-- Modelled from the spec: a concrete `vm.Eval` for `MiniNode` over a
`ContextUrlValues` reader. -/
def miniEvalUrl (mt : ContextUrlValues) : MiniNode → Option Value
  | .ident name => mt.row.lookup name
  | .eqZero name =>
    match mt.row.lookup name with
    | some (.intValue i) => some (.boolValue (i = 0))
    | _ => none

/-- The projection scenario row of the spec, `{"a":1,"b":2}`. -/
def exProjRow : SqlDriverMessageMap :=
  { IdVal := 0,
    values := [some (.intValue 1), some (.intValue 2)],
    colIndex := [("a", 0), ("b", 1)],
    key := "" }

/-- The first projection scenario column, `{As:"a",Expr:a}`. -/
def exProjColA : Column MiniNode :=
  { As := "a", Key := "a", SourceIndex := 0, ParentIndex := 0, Star := false,
    Guard := none, Expr := .ident "a" }

/-- The second projection scenario column, `{As:"b",Expr:b,Guard: a==0}`. -/
def exProjColB : Column MiniNode :=
  { As := "b", Key := "b", SourceIndex := 1, ParentIndex := 1, Star := false,
    Guard := some (.eqZero "a"), Expr := .ident "b" }

/-- The projection scenario columns of the spec,
`[{As:"a",Expr:a}, {As:"b",Expr:b,Guard: a==0}]`. -/
def exProjCols : List (Column MiniNode) := [exProjColA, exProjColB]

/-- A column marked as dropped from the output projection
(`ParentIndex = -1`), used to probe the `ParentIndex` skip. -/
def exNegCol : Column MiniNode :=
  { As := "b", Key := "b", SourceIndex := 0, ParentIndex := -1, Star := false,
    Guard := none, Expr := .ident "b" }

/-- The JoinKey scenario row of the spec, `{"first":"ann","last":"lee"}`,
as a `SqlDriverMessageMap`. -/
def exJoinRow : SqlDriverMessageMap :=
  { IdVal := 0,
    values := [some (.stringValue "ann"), some (.stringValue "lee")],
    colIndex := [("first", 0), ("last", 1)],
    key := "" }

/-- The join nodes `[first, last]` of the JoinKey scenario. -/
def exJoinNodes : List MiniNode := [.ident "first", .ident "last"]

/-! ## JoinMerge (from `src/exec/join.go`, `NewJoinNaiveMerge` / `JoinMerge.Run`) -/

/-- The statement-derived state of a `JoinMerge` task: the two source aliases
and column lists (`m.leftStmt.Alias`, `m.leftStmt.Source.Columns`, and the
right-hand counterparts). -/
structure JoinMergeConf (Node : Type) where
  leftAlias : String
  leftSourceCols : List (Column Node)
  rightAlias : String
  rightSourceCols : List (Column Node)

/-- Go map assignment `m[k] = v` on an association list: replace the existing
binding or append a new one. -/
def assocSetInt : List (String × Int) → String → Int → List (String × Int)
  | [], k, v => [(k, v)]
  | (k1, v1) :: rest, k, v =>
    if k1 = k then (k, v) :: rest else (k1, v1) :: assocSetInt rest k v

/-- The column index built at the start of `JoinMerge.Run` (join.go:171-180):
`m.colIndex[alias + "." + col.Key()] = col.ParentIndex`, scanning the left and
then the right source columns. -/
def JoinMergeConf.colIndex {Node : Type} (m : JoinMergeConf Node) : List (String × Int) :=
  let m1 := m.leftSourceCols.foldl
    (fun acc col => assocSetInt acc (m.leftAlias ++ "." ++ col.Key) col.ParentIndex) []
  m.rightSourceCols.foldl
    (fun acc col => assocSetInt acc (m.rightAlias ++ "." ++ col.Key) col.ParentIndex) m1

/-- The function `JoinMerge.valIndexing` (join.go:302-315): for each column, skip when
`ParentIndex < 0` or `ParentIndex >= len(valOut)` (with a warning); otherwise
write `valOut[ParentIndex] = valSource[SourceIndex]`.  The read of
`valSource[col.SourceIndex]` is unguarded in the source, so an out-of-range
`SourceIndex` is a Go panic, modelled as `none`. -/
def valIndexing {Node : Type} (valOut valSource : List DriverVal)
    (cols : List (Column Node)) : Option (List DriverVal) :=
  match cols with
  | [] => some valOut
  | col :: rest =>
    if col.ParentIndex < 0 then valIndexing valOut valSource rest
    else if (valOut.length : Int) ≤ col.ParentIndex then valIndexing valOut valSource rest
    else
      match listGetInt valSource col.SourceIndex with
      | some v => valIndexing (listSetInt valOut col.ParentIndex v) valSource rest
      | none => none

/-- The body of the inner loop of `mergeValueMessages` (join.go:291-296) for one
`(lm, rm)` pair: a fresh value slice of length `len(m.colIndex)` (Go zero value
`nil` in every slot), indexed from the left then the right message, wrapped as
`NewSqlDriverMessageMap(0, vals, m.colIndex)` — modelled from the spec, the
constructor stores the id, values and column index, with an empty key slot. -/
def newJoinedMsg {Node : Type} (conf : JoinMergeConf Node)
    (lm rm : SqlDriverMessageMap) : Option SqlDriverMessageMap :=
  match valIndexing (List.replicate conf.colIndex.length none) lm.values conf.leftSourceCols with
  | none => none
  | some v1 =>
    match valIndexing v1 rm.values conf.rightSourceCols with
    | none => none
    | some v2 => some { IdVal := 0, values := v2, colIndex := conf.colIndex, key := "" }

/-- The inner loop of `mergeValueMessages` (join.go:287-297): one left message
against every right message, in order; a panic (`none`) aborts the merge. -/
def mergeRowMsgs {Node : Type} (conf : JoinMergeConf Node) (lm : SqlDriverMessageMap) :
    List SqlDriverMessageMap → Option (List SqlDriverMessageMap)
  | [] => some []
  | rm :: rest =>
    match newJoinedMsg conf lm rm with
    | none => none
    | some msg => (mergeRowMsgs conf lm rest).map fun out => msg :: out

/-- The function `JoinMerge.mergeValueMessages` (join.go:280-300): the cartesian product of
the two per-key buckets, left-major, in arrival order. -/
def mergeValueMessages {Node : Type} (conf : JoinMergeConf Node) :
    List SqlDriverMessageMap → List SqlDriverMessageMap → Option (List SqlDriverMessageMap)
  | [], _ => some []
  | lm :: rest, rmsgs =>
    match mergeRowMsgs conf lm rmsgs with
    | none => none
    | some o1 => (mergeValueMessages conf rest rmsgs).map fun o2 => o1 ++ o2

/-- A side hash table of materialised messages,
`map[string][]*SqlDriverMessageMap`, as an association list in first-arrival
key order (Go map iteration order is unspecified; no claim depends on it). -/
abbrev Table := List (String × List SqlDriverMessageMap)

/-- Go map read `t[k]` with its presence bit. -/
def tableGet (t : Table) (k : String) : Option (List SqlDriverMessageMap) :=
  match t with
  | [] => none
  | (k1, ms) :: rest => if k1 = k then some ms else tableGet rest k

/-- Go `t[key] = append(t[key], mt)`. -/
def tableAdd (t : Table) (k : String) (m : SqlDriverMessageMap) : Table :=
  match t with
  | [] => [(k, [m])]
  | (k1, ms) :: rest =>
    if k1 = k then (k1, ms ++ [m]) :: rest else (k1, ms) :: tableAdd rest k m

/-- The hash table built by one ingest worker from the messages it accepted. -/
def buildTable (msgs : List SqlDriverMessageMap) : Table :=
  msgs.foldl (fun t m => tableAdd t m.key m) []

/-- A fatal ingest error of `JoinMerge.Run`.  `emptyKey` carries the offending
message, whose row the constructed error message renders
(`"To use Join msgs must have keys but got \"\" for %+v", mt.Row()`);
`wrongType` carries the dynamic type name (`%T`). -/
inductive JoinFatal where
  | emptyKey (offending : SqlDriverMessageMap) : JoinFatal
  | wrongType (typeName : String) : JoinFatal
  deriving DecidableEq, Repr

/-- One ingest worker of `JoinMerge.Run` (join.go:193-224 and 226-258) over a
finite input stream: append each keyed `SqlDriverMessageMap` to the side table;
an empty `Key()` or a non-`SqlDriverMessageMap` message sets `fatalErr`, closes
`sigCh` and makes the worker return early. -/
def ingestSide : List JMessage → Table → Except JoinFatal Table
  | [], t => .ok t
  | .sqlMsg mt :: rest, t =>
    if mt.Key = "" then .error (.emptyKey mt)
    else ingestSide rest (tableAdd t mt.Key mt)
  | .otherMsg typeName :: _, _ => .error (.wrongType typeName)

/-- The per-left-key body of the emission loop (join.go:262-276): when the key
is also present in the right table, the cartesian product of the two buckets;
otherwise nothing. -/
def keyContribution {Node : Type} (conf : JoinMergeConf Node) (rh : Table)
    (e : String × List SqlDriverMessageMap) : Option (List SqlDriverMessageMap) :=
  match tableGet rh e.1 with
  | some rs => mergeValueMessages conf e.2 rs
  | none => some []

/-- The emission loop of `JoinMerge.Run` (join.go:262-276): iterate the left
table and concatenate the per-key contributions. -/
def joinMergeEmit {Node : Type} (conf : JoinMergeConf Node) (rh : Table) :
    Table → Option (List SqlDriverMessageMap)
  | [] => some []
  | e :: rest =>
    match keyContribution conf rh e with
    | none => none
    | some o1 => (joinMergeEmit conf rh rest).map fun o2 => o1 ++ o2

/-- The monotone re-numbering `msg.IdVal = i; i++` applied to the emitted
messages before each send (join.go:271-272). -/
def renumberFrom (i : Nat) : List SqlDriverMessageMap → List SqlDriverMessageMap
  | [] => []
  | m :: rest => { m with IdVal := i } :: renumberFrom (i + 1) rest

/-- The view of the output rows produced for one key that the claim describes:
the cartesian product of the two per-key buckets when the key is in both
tables, and nothing otherwise.  This follows the words of the claim; the
cartesian-product theorem compares it with the source emission loop. -/
def keyOutputs {Node : Type} (conf : JoinMergeConf Node) (lh rh : Table)
    (k : String) : Option (List SqlDriverMessageMap) :=
  match tableGet lh k, tableGet rh k with
  | some ls, some rs => mergeValueMessages conf ls rs
  | _, _ => some []

/-- The observable outcome of a call to `JoinMerge.Run`:

* `sigClosed` — whether `close(m.TaskBase.sigCh)` was executed;
* `fatalErr` — the value left in the `fatalErr` variable (on a two-sided race
  the model keeps the left worker, which only strengthens existence);
* `returned` — `some e` when `Run` returns with error `e` (`some none` is a
  `nil` error), and `none` when `Run` never returns.  The fatal paths of both
  ingest workers return without calling `wg.Done()`, and a worker stopped by
  `sigCh` also skips it, so after any fatal error `wg.Wait()` blocks forever
  and `Run` never returns; the only `return` statements of `Run` yield `nil`,
  so `fatalErr` is never propagated;
* `outputs` — the messages sent downstream during emission;
* `panicked` — an emission-phase panic (out-of-range `SourceIndex`), recovered
  by the deferred `context.Recover()`; messages already sent before such a
  panic are not modelled, as no claim concerns them. -/
structure JoinMergeOutcome where
  sigClosed : Bool
  fatalErr : Option JoinFatal
  returned : Option (Option JoinFatal)
  outputs : List SqlDriverMessageMap
  panicked : Bool
  deriving DecidableEq, Repr

/-- The function `JoinMerge.Run` (join.go:157-278) over two finite input streams: ingest
both sides into hash tables, await the workers, then emit the per-key
cartesian products, renumbered from 0. -/
def joinMergeRun {Node : Type} (conf : JoinMergeConf Node)
    (leftIn rightIn : List JMessage) : JoinMergeOutcome :=
  match ingestSide leftIn [], ingestSide rightIn [] with
  | .error e, _ =>
    { sigClosed := true, fatalErr := some e, returned := none,
      outputs := [], panicked := false }
  | .ok _, .error e =>
    { sigClosed := true, fatalErr := some e, returned := none,
      outputs := [], panicked := false }
  | .ok lh, .ok rh =>
    match joinMergeEmit conf rh lh with
    | some out =>
      { sigClosed := false, fatalErr := none, returned := some none,
        outputs := renumberFrom 0 out, panicked := false }
    | none =>
      { sigClosed := false, fatalErr := none, returned := some none,
        outputs := [], panicked := true }

/-! ## Channel sends and the cancellation signal

The outcome of one attempted channel send, as a function of whether the
downstream channel can accept a message and whether `sigCh` is already closed.
A Go `select` with several ready branches picks one at random; the model
prefers the send, which only matters when the channel is ready and is
irrelevant to the claim about blocking. -/

inductive SendOutcome where
  | sent : SendOutcome
  | cancelled : SendOutcome
  | blocked : SendOutcome
  deriving DecidableEq, Repr

/-- The forward of the keyed message in `JoinKey.Run` (join.go:97,
`outCh <- mt`): a bare channel send, in no `select`, so it blocks until the
channel is ready whatever the state of `sigCh`. -/
def joinKeyForwardSend (chanReady : Bool) (_sigClosed : Bool) : SendOutcome :=
  if chanReady then .sent else .blocked

/-- The emission send in `JoinMerge.Run` (join.go:273, `outCh <- msg`): a bare
channel send, in no `select`. -/
def joinMergeEmitSend (chanReady : Bool) (_sigClosed : Bool) : SendOutcome :=
  if chanReady then .sent else .blocked

/-- The outbound send of the projection handler (projection.go:134-139):
a `select` over `out <- outMsg` and `<-m.SigChan()`, hence cancellable. -/
def projectionOutSend (chanReady : Bool) (sigClosed : Bool) : SendOutcome :=
  if chanReady then .sent else if sigClosed then .cancelled else .blocked

/-! ## Concrete JoinMerge fixtures (the cardinality scenario of the spec). -/

/-- A trivial column for join fixtures: `Node` is `Unit`. -/
def mkJoinCol (key : String) (si pi2 : Int) : Column Unit :=
  { As := key, Key := key, SourceIndex := si, ParentIndex := pi2, Star := false,
    Guard := none, Expr := () }

/-- The configuration of the cardinality scenario: each side contributes its
`v` column to the output row. -/
def exMergeConf : JoinMergeConf Unit :=
  { leftAlias := "t1", leftSourceCols := [mkJoinCol "v" 0 0],
    rightAlias := "t2", rightSourceCols := [mkJoinCol "v" 0 1] }

/-- A keyed message for join fixtures. -/
def mkKeyedMsg (k : String) (v : Int) : SqlDriverMessageMap :=
  { IdVal := 0, values := [some (.intValue v)], colIndex := [("v", 0)], key := k }

/-- Left stream of the cardinality scenario: `[{k:"x",v:1},{k:"x",v:2}]`. -/
def exMergeLeft : List SqlDriverMessageMap := [mkKeyedMsg "x" 1, mkKeyedMsg "x" 2]

/-- Right stream of the cardinality scenario:
`[{k:"x",v:9},{k:"x",v:8},{k:"y",v:0}]`. -/
def exMergeRight : List SqlDriverMessageMap :=
  [mkKeyedMsg "x" 9, mkKeyedMsg "x" 8, mkKeyedMsg "y" 0]

/-- A message whose `Key()` is the empty string, as arrives at `JoinMerge` when
an upstream task did not key it. -/
def exEmptyKeyMsg : SqlDriverMessageMap :=
  { IdVal := 7, values := [some (.stringValue "ann")], colIndex := [("first", 0)],
    key := "" }

end QL

/-- C9: for every time `t`, `TimeValue(t).Int()` equals the Unix nanoseconds of `t`
divided (Go division, truncating toward zero) by 1 000 000, `TimeValue(t).Float()`
is that same millisecond count widened to float, and `TimeValue(t).ToString()` is
its base-10 rendering; in particular for `t = 1970-01-01T00:00:01.234Z`
(Unix nanoseconds 1 234 000 000), `Int() = 1234` and `ToString() = "1234"`. -/
theorem QL.timeValue_millisecond_encoding :
    (∀ t : QL.TimeValue,
        QL.TimeValue.Int t = Int.tdiv t.V 1000000 ∧
        QL.TimeValue.Float t = Float.ofInt (QL.TimeValue.Int t) ∧
        QL.TimeValue.ToString t = toString (QL.TimeValue.Int t)) ∧
    QL.TimeValue.Int ⟨1234000000⟩ = 1234 ∧
    QL.TimeValue.ToString ⟨1234000000⟩ = "1234" := by
  refine ⟨fun t => ⟨rfl, rfl, rfl⟩, by decide, rfl⟩

/-- Helper: the evaluation loop of `JoinKey.Run` agrees with monadic `mapM`
followed by taking `ToString` forms. -/
theorem QL.joinKeyEvalVals_eq_mapM {Node : Type}
    (eval : QL.SqlDriverMessageMap → Node → Option QL.Value)
    (mt : QL.SqlDriverMessageMap) (joinNodes : List Node) :
    QL.joinKeyEvalVals eval mt joinNodes
      = (joinNodes.mapM (eval mt)).map (List.map QL.Value.ToString) := by
  rw [← List.mapM'_eq_mapM]
  induction joinNodes with
  | nil => rfl
  | cons node rest ih =>
    rw [List.mapM'_cons]
    cases h : eval mt node with
    | none => simp [QL.joinKeyEvalVals, h]
    | some v =>
      cases hrest : List.mapM' (eval mt) rest with
      | none => simp [QL.joinKeyEvalVals, h, ih, hrest]
      | some ws => simp [QL.joinKeyEvalVals, h, ih, hrest]

/-- Helper: one failing join node makes the evaluation loop fail. -/
theorem QL.joinKeyEvalVals_none {Node : Type}
    (eval : QL.SqlDriverMessageMap → Node → Option QL.Value)
    (mt : QL.SqlDriverMessageMap) (joinNodes : List Node)
    (h : ∃ node ∈ joinNodes, eval mt node = none) :
    QL.joinKeyEvalVals eval mt joinNodes = none := by
  induction joinNodes with
  | nil => simp at h
  | cons node rest ih =>
    obtain ⟨n, hmem, hn⟩ := h
    rcases List.mem_cons.mp hmem with h1 | h1
    · subst h1
      simp [QL.joinKeyEvalVals, hn]
    · cases he : eval mt node with
      | none => simp [QL.joinKeyEvalVals, he]
      | some v => simp [QL.joinKeyEvalVals, he, ih ⟨n, h1, hn⟩]

/-- C2: for every `SqlDriverMessageMap` whose join-node evaluations all succeed
(`mapM` returns the evaluated values `ws`), `JoinKey` sets the key via
`SetKeyHashed` to the `ToString()` forms of `ws`, in join-node order, joined
with the single NUL byte, and forwards that same message downstream (the run
loop emits it and continues). -/
theorem QL.joinKey_composite_key {Node : Type}
    (eval : QL.SqlDriverMessageMap → Node → Option QL.Value)
    (joinNodes : List Node) (mt : QL.SqlDriverMessageMap) (ws : List QL.Value)
    (h : joinNodes.mapM (eval mt) = some ws) :
    QL.joinKeyMsg eval joinNodes mt
      = some (mt.SetKeyHashed
          (String.intercalate QL.nulDelim (ws.map QL.Value.ToString))) ∧
    ∀ rest, QL.joinKeyLoop eval joinNodes (.sqlMsg mt :: rest)
      = (mt.SetKeyHashed (String.intercalate QL.nulDelim (ws.map QL.Value.ToString))
           :: (QL.joinKeyLoop eval joinNodes rest).1,
         (QL.joinKeyLoop eval joinNodes rest).2) := by
  have hvals : QL.joinKeyEvalVals eval mt joinNodes = some (ws.map QL.Value.ToString) := by
    rw [QL.joinKeyEvalVals_eq_mapM, h]
    rfl
  constructor
  · simp [QL.joinKeyMsg, hvals]
  · intro rest
    simp [QL.joinKeyLoop, QL.joinKeyMsg, hvals]

/-- C2 witness: the spec scenario. Row `{"first":"ann","last":"lee"}` with join
nodes `[first, last]` is forwarded with key `"ann" ++ NUL ++ "lee"`. -/
theorem QL.joinKey_composite_key_witness :
    QL.joinKeyMsg QL.miniEval QL.exJoinNodes QL.exJoinRow
      = some (QL.exJoinRow.SetKeyHashed "ann\x00lee") := by
  have h := (QL.joinKey_composite_key QL.miniEval QL.exJoinNodes QL.exJoinRow
    [.stringValue "ann", .stringValue "lee"] (by decide)).1
  rw [h]
  decide

/-- C7: in `JoinKey`, a message on which some join-node evaluation fails is
dropped (not forwarded), and the loop continues with the remaining input
unchanged — the task does not terminate on such a message. -/
theorem QL.joinKey_drop_on_eval_failure {Node : Type}
    (eval : QL.SqlDriverMessageMap → Node → Option QL.Value)
    (joinNodes : List Node) (mt : QL.SqlDriverMessageMap) (rest : List QL.JMessage)
    (h : ∃ node ∈ joinNodes, eval mt node = none) :
    QL.joinKeyMsg eval joinNodes mt = none ∧
    QL.joinKeyLoop eval joinNodes (.sqlMsg mt :: rest)
      = QL.joinKeyLoop eval joinNodes rest := by
  have hvals := QL.joinKeyEvalVals_none eval mt joinNodes h
  constructor
  · simp [QL.joinKeyMsg, hvals]
  · simp [QL.joinKeyLoop, QL.joinKeyMsg, hvals]

/-- C7 witness: a join node referring to a missing alias fails to evaluate; the
message is dropped and the following message is still processed. -/
theorem QL.joinKey_drop_on_eval_failure_witness :
    QL.joinKeyMsg QL.miniEval [QL.MiniNode.ident "missing"] QL.exJoinRow = none ∧
    QL.joinKeyLoop QL.miniEval [QL.MiniNode.ident "missing"]
        [.sqlMsg QL.exJoinRow, .sqlMsg (QL.exJoinRow.SetKeyHashed "k")]
      = QL.joinKeyLoop QL.miniEval [QL.MiniNode.ident "missing"]
          [.sqlMsg (QL.exJoinRow.SetKeyHashed "k")] :=
  QL.joinKey_drop_on_eval_failure QL.miniEval [QL.MiniNode.ident "missing"]
    QL.exJoinRow [.sqlMsg (QL.exJoinRow.SetKeyHashed "k")]
    ⟨QL.MiniNode.ident "missing", by decide, by decide⟩

/-- Helper: the column loop of the `SqlDriverMessageMap` projection arm ignores
the columns with negative `ParentIndex`, from any starting context. -/
theorem QL.projectSql_foldl_filter {Node : Type}
    (eval : QL.SqlDriverMessageMap → Node → Option QL.Value)
    (mt : QL.SqlDriverMessageMap) (columns : List (QL.Column Node))
    (ctx : QL.ContextSimple) :
    columns.foldl (QL.projectSqlStep eval mt) ctx
      = (columns.filter fun c => decide (0 ≤ c.ParentIndex)).foldl
          (QL.projectSqlStep eval mt) ctx := by
  induction columns generalizing ctx with
  | nil => rfl
  | cons c rest ih =>
    by_cases h : c.ParentIndex < 0
    · have hstep : QL.projectSqlStep eval mt ctx c = ctx := by
        simp [QL.projectSqlStep, h]
      have hfilt : decide (0 ≤ c.ParentIndex) = false := by
        simp only [decide_eq_false_iff_not]
        omega
      simp [List.filter_cons, hfilt, hstep, ih]
    · have hfilt : decide (0 ≤ c.ParentIndex) = true := by
        simp only [decide_eq_true_eq]
        omega
      simp [List.filter_cons, hfilt, ih]

/-- C4 counterexample: in the `ContextUrlValues` arm a column with
`ParentIndex < 0` is not skipped — its evaluated value still appears in the
output write context, refuting the claimed symmetry between the two input
bodies. -/
theorem QL.projection_parentIndex_url_counterexample :
    QL.exNegCol.ParentIndex < 0 ∧
    QL.projectUrlValues QL.miniEvalUrl [QL.exNegCol]
        ⟨[("b", QL.Value.intValue 2)]⟩
      = [("b", QL.Value.intValue 2)] := by
  decide

/-- C4 (amended): in the `SqlDriverMessageMap` arm every column with
`ParentIndex < 0` is skipped — the output equals the projection of the columns
with non-negative `ParentIndex` only; the `ContextUrlValues` arm, by contrast,
performs no `ParentIndex` check at all: its per-column step is invariant under
any change of `ParentIndex`. -/
theorem QL.projection_parentIndex_skip {Node : Type}
    (evalS : QL.SqlDriverMessageMap → Node → Option QL.Value)
    (evalU : QL.ContextUrlValues → Node → Option QL.Value)
    (columns : List (QL.Column Node)) (mt : QL.SqlDriverMessageMap)
    (mtU : QL.ContextUrlValues) :
    QL.projectSqlMsg evalS columns mt
      = QL.projectSqlMsg evalS (columns.filter fun c => decide (0 ≤ c.ParentIndex)) mt ∧
    ∀ (pi : Int) (col : QL.Column Node) (ctx : QL.ContextSimple),
      QL.projectUrlStep evalU mtU ctx { col with ParentIndex := pi }
        = QL.projectUrlStep evalU mtU ctx col := by
  exact ⟨QL.projectSql_foldl_filter evalS mt columns [], fun pi col ctx => rfl⟩

/-- C5 counterexample: on a message of unknown body type the projection handler
does emit something downstream (the never-assigned `outMsg`, the `nil`
interface), refuting the claim that no output message is emitted for that
row. -/
theorem QL.projection_unknown_body_counterexample :
    (QL.projectionHandler QL.miniEval QL.miniEvalUrl QL.exProjCols
        (QL.PMessage.otherMsg "UnknownBody")).1 ≠ [] := by
  decide

/-- C5 (amended): a message of unknown body type is logged and is not fatal —
the handler returns `true`, so processing continues with subsequent messages —
but rather than the row being dropped silently, one output message is emitted
downstream for it: the `nil` interface value of the never-assigned `outMsg`. -/
theorem QL.projection_unknown_body_not_fatal {Node : Type}
    (evalS : QL.SqlDriverMessageMap → Node → Option QL.Value)
    (evalU : QL.ContextUrlValues → Node → Option QL.Value)
    (columns : List (QL.Column Node)) (typeName : String) :
    QL.projectionHandler evalS evalU columns (QL.PMessage.otherMsg typeName)
      = ([none], true) := rfl

/-- C6: a projection column whose guard evaluates to the boolean value `false`
is suppressed for that row (the write context is unchanged by that column);
a column whose guard evaluation fails is still included — the step behaves as
if the column had no guard. -/
theorem QL.projection_guard_semantics {Node : Type}
    (evalS : QL.SqlDriverMessageMap → Node → Option QL.Value)
    (mt : QL.SqlDriverMessageMap) (ctx : QL.ContextSimple)
    (col : QL.Column Node) (g : Node) (hg : col.Guard = some g) :
    (evalS mt g = some (.boolValue false) →
      QL.projectSqlStep evalS mt ctx col = ctx) ∧
    (evalS mt g = none →
      QL.projectSqlStep evalS mt ctx col
        = QL.projectSqlStep evalS mt ctx { col with Guard := none }) := by
  constructor
  · intro heval
    by_cases h : col.ParentIndex < 0
    · simp [QL.projectSqlStep, h]
    · simp [QL.projectSqlStep, h, QL.guardFalse, hg, heval]
  · intro heval
    have hguard : QL.guardFalse evalS mt col.Guard = false := by
      simp [QL.guardFalse, hg, heval]
    have hnone : QL.guardFalse evalS mt (none : Option Node) = false := rfl
    simp [QL.projectSqlStep, hguard, hnone]

/-- C6 witness: the spec scenario.  On row `{"a":1,"b":2}` the guard `a==0` of
column `b` evaluates to `BoolValue(false)`, the column is suppressed, and the
full projection output is `{"a":1}`. -/
theorem QL.projection_guard_semantics_witness :
    QL.projectSqlStep QL.miniEval QL.exProjRow [("a", QL.Value.intValue 1)] QL.exProjColB
      = [("a", QL.Value.intValue 1)] ∧
    QL.projectSqlMsg QL.miniEval QL.exProjCols QL.exProjRow
      = [("a", QL.Value.intValue 1)] :=
  ⟨(QL.projection_guard_semantics QL.miniEval QL.exProjRow [("a", QL.Value.intValue 1)]
      QL.exProjColB (QL.MiniNode.eqZero "a") rfl).1 (by decide),
   by decide⟩

/-- C1 (the code against the claim, at the failing input): one message with an
empty `Key()` on the left input of `JoinMerge`.  The pipeline is indeed shut
down (`sigCh` is closed) and the error mentioning the offending row is
constructed into the `fatalErr` variable, but `Run` never returns it: the
fatal path skips `wg.Done()`, so `Run` blocks forever in `wg.Wait()`, and the
only `return` statements of `Run` yield `nil` in any case. -/
theorem QL.joinMerge_emptyKey_fatal_outcome :
    (QL.joinMergeRun QL.exMergeConf [.sqlMsg QL.exEmptyKeyMsg] []).sigClosed = true ∧
    (QL.joinMergeRun QL.exMergeConf [.sqlMsg QL.exEmptyKeyMsg] []).fatalErr
      = some (QL.JoinFatal.emptyKey QL.exEmptyKeyMsg) ∧
    (QL.joinMergeRun QL.exMergeConf [.sqlMsg QL.exEmptyKeyMsg] []).returned = none := by
  decide

/-- C8 (the code against the claim): with the downstream channel unable to
accept and `sigCh` already closed, the forward in `JoinKey` (join.go:97) and
the emission send in `JoinMerge` (join.go:273) block — they are bare sends, in
no `select` — while the projection send, which is select-wrapped, is
cancelled. -/
theorem QL.bare_sends_block_despite_sig :
    QL.joinKeyForwardSend false true = QL.SendOutcome.blocked ∧
    QL.joinMergeEmitSend false true = QL.SendOutcome.blocked ∧
    QL.projectionOutSend false true = QL.SendOutcome.cancelled := by
  decide

/-- Helper: a Go slice read succeeds on an in-range index. -/
theorem QL.listGetInt_some {α : Type} (xs : List α) (i : Int)
    (h : 0 ≤ i ∧ i < (xs.length : Int)) :
    ∃ v, QL.listGetInt xs i = some v :=
  ⟨_, dif_pos h⟩

/-- Helper: a Go slice read of an out-of-range index panics. -/
theorem QL.listGetInt_none {α : Type} (xs : List α) (i : Int)
    (h : ¬(0 ≤ i ∧ i < (xs.length : Int))) :
    QL.listGetInt xs i = none :=
  dif_neg h

/-- Helper: a Go slice write preserves the length. -/
theorem QL.listSetInt_length {α : Type} (xs : List α) (i : Int) (v : α) :
    (QL.listSetInt xs i v).length = xs.length :=
  List.length_set xs i.toNat v

/-- Helper: `valIndexing` is total when every column it does not skip reads an
in-range `SourceIndex`, and it preserves the output length. -/
theorem QL.valIndexing_total {Node : Type} (valSource : List QL.DriverVal)
    (cols : List (QL.Column Node)) :
    ∀ valOut : List QL.DriverVal,
      (∀ col ∈ cols, 0 ≤ col.ParentIndex → col.ParentIndex < (valOut.length : Int) →
        0 ≤ col.SourceIndex ∧ col.SourceIndex < (valSource.length : Int)) →
      ∃ out, QL.valIndexing valOut valSource cols = some out ∧
        out.length = valOut.length := by
  induction cols with
  | nil => exact fun valOut _ => ⟨valOut, rfl, rfl⟩
  | cons col rest ih =>
    intro valOut h
    by_cases h1 : col.ParentIndex < 0
    · obtain ⟨out, hout, hlen⟩ := ih valOut fun c hc => h c (List.mem_cons_of_mem col hc)
      exact ⟨out, by simp only [QL.valIndexing, if_pos h1]; exact hout, hlen⟩
    · by_cases h2 : (valOut.length : Int) ≤ col.ParentIndex
      · obtain ⟨out, hout, hlen⟩ := ih valOut fun c hc => h c (List.mem_cons_of_mem col hc)
        exact ⟨out, by simp only [QL.valIndexing, if_neg h1, if_pos h2]; exact hout, hlen⟩
      · have hsi := h col (List.mem_cons_self col rest) (by omega) (by omega)
        obtain ⟨v, hv⟩ := QL.listGetInt_some valSource col.SourceIndex hsi
        have hsetlen : (QL.listSetInt valOut col.ParentIndex v).length = valOut.length :=
          List.length_set valOut col.ParentIndex.toNat v
        obtain ⟨out, hout, hlen⟩ := ih (QL.listSetInt valOut col.ParentIndex v)
          (fun c hc hp1 hp2 => h c (List.mem_cons_of_mem col hc) hp1 (by rw [hsetlen] at hp2; exact hp2))
        refine ⟨out, ?_, by rw [hlen, hsetlen]⟩
        simp only [QL.valIndexing, if_neg h1, if_neg h2, hv]
        exact hout

/-- Helper: one unskipped column with an out-of-range `SourceIndex` makes
`valIndexing` panic. -/
theorem QL.valIndexing_panic {Node : Type} (valSource : List QL.DriverVal)
    (cols : List (QL.Column Node)) :
    ∀ valOut : List QL.DriverVal,
      (∃ col ∈ cols, 0 ≤ col.ParentIndex ∧ col.ParentIndex < (valOut.length : Int) ∧
        ¬(0 ≤ col.SourceIndex ∧ col.SourceIndex < (valSource.length : Int))) →
      QL.valIndexing valOut valSource cols = none := by
  induction cols with
  | nil => intro valOut h; simp at h
  | cons col rest ih =>
    intro valOut h
    obtain ⟨c, hmem, hc1, hc2, hc3⟩ := h
    rcases List.mem_cons.mp hmem with heq | hmem2
    · subst heq
      have hget := QL.listGetInt_none valSource c.SourceIndex hc3
      simp only [QL.valIndexing, if_neg (by omega : ¬c.ParentIndex < 0),
        if_neg (by omega : ¬(valOut.length : Int) ≤ c.ParentIndex), hget]
    · by_cases h1 : col.ParentIndex < 0
      · simp only [QL.valIndexing, if_pos h1]
        exact ih valOut ⟨c, hmem2, hc1, hc2, hc3⟩
      · by_cases h2 : (valOut.length : Int) ≤ col.ParentIndex
        · simp only [QL.valIndexing, if_neg h1, if_pos h2]
          exact ih valOut ⟨c, hmem2, hc1, hc2, hc3⟩
        · cases hget : QL.listGetInt valSource col.SourceIndex with
          | none => simp only [QL.valIndexing, if_neg h1, if_neg h2, hget]
          | some v =>
            simp only [QL.valIndexing, if_neg h1, if_neg h2, hget]
            refine ih (QL.listSetInt valOut col.ParentIndex v) ⟨c, hmem2, hc1, ?_, hc3⟩
            rw [QL.listSetInt_length]
            exact hc2

/-- C10: `valIndexing` bounds-checks only `ParentIndex` — columns with
`ParentIndex < 0` or `ParentIndex ≥ len(valOut)` are skipped — but the read
`valSource[col.SourceIndex]` is unguarded: the function yields a value (of the
same length as `valOut`) whenever every unskipped column has
`0 ≤ SourceIndex < len(valSource)`, and a column violating that bound makes it
panic instead of being skipped. -/
theorem QL.valIndexing_bounds_check {Node : Type}
    (valOut valSource : List QL.DriverVal) (cols : List (QL.Column Node)) :
    ((∀ col ∈ cols, 0 ≤ col.ParentIndex → col.ParentIndex < (valOut.length : Int) →
        0 ≤ col.SourceIndex ∧ col.SourceIndex < (valSource.length : Int)) →
      ∃ out, QL.valIndexing valOut valSource cols = some out ∧
        out.length = valOut.length) ∧
    ((∃ col ∈ cols, 0 ≤ col.ParentIndex ∧ col.ParentIndex < (valOut.length : Int) ∧
        ¬(0 ≤ col.SourceIndex ∧ col.SourceIndex < (valSource.length : Int))) →
      QL.valIndexing valOut valSource cols = none) :=
  ⟨QL.valIndexing_total valSource cols valOut, QL.valIndexing_panic valSource cols valOut⟩

/-- C10 witness: over a source row of length 1, a column reading source index 0
into parent slot 0 succeeds, while a column reading source index 3 into parent
slot 0 panics instead of being skipped. -/
theorem QL.valIndexing_bounds_check_witness :
    (∃ out, QL.valIndexing [none, none] [some (QL.Value.intValue 5)]
        [QL.mkJoinCol "v" 0 0] = some out ∧ out.length = 2) ∧
    QL.valIndexing [none, none] [some (QL.Value.intValue 5)]
        [QL.mkJoinCol "v" 3 0] = none :=
  ⟨(QL.valIndexing_bounds_check [none, none] [some (QL.Value.intValue 5)]
      [QL.mkJoinCol "v" 0 0]).1 (by decide),
   (QL.valIndexing_bounds_check [none, none] [some (QL.Value.intValue 5)]
      [QL.mkJoinCol "v" 3 0]).2 ⟨QL.mkJoinCol "v" 3 0, by decide, by decide⟩⟩

/-- Helper: reading a table after `tableAdd` — the added key gains the appended
message, other keys are untouched. -/
theorem QL.tableGet_tableAdd (t : QL.Table) (k1 : String) (m : QL.SqlDriverMessageMap)
    (k : String) :
    QL.tableGet (QL.tableAdd t k1 m) k
      = if k1 = k then some ((QL.tableGet t k).getD [] ++ [m]) else QL.tableGet t k := by
  induction t with
  | nil => by_cases h : k1 = k <;> simp [QL.tableAdd, QL.tableGet, h]
  | cons e rest ih =>
    obtain ⟨k2, ms⟩ := e
    by_cases ha : k2 = k1
    · subst ha
      by_cases hb : k2 = k
      · subst hb
        simp [QL.tableAdd, QL.tableGet]
      · simp [QL.tableAdd, QL.tableGet, hb]
    · by_cases hb : k2 = k
      · subst hb
        have hk1 : ¬k1 = k2 := fun hcontra => ha hcontra.symm
        simp [QL.tableAdd, QL.tableGet, ha, hk1]
      · simp [QL.tableAdd, QL.tableGet, ha, hb, ih]

/-- Helper: the bucket that `buildTable` accumulates for key `k` on top of a
starting table is exactly the sublist of messages keyed `k`. -/
theorem QL.tableGet_buildAux (msgs : List QL.SqlDriverMessageMap) :
    ∀ (t : QL.Table) (k : String),
      QL.tableGet (msgs.foldl (fun acc m => QL.tableAdd acc m.key m) t) k
        = if (msgs.filter fun m => m.key == k) = [] then QL.tableGet t k
          else some ((QL.tableGet t k).getD [] ++ (msgs.filter fun m => m.key == k)) := by
  induction msgs with
  | nil => intro t k; simp
  | cons m rest ih =>
    intro t k
    by_cases h : m.key = k
    · have hfilt : ((m :: rest).filter fun x => x.key == k)
          = m :: (rest.filter fun x => x.key == k) := by
        simp [List.filter_cons, h]
      rw [List.foldl_cons, ih, hfilt, QL.tableGet_tableAdd, if_pos h]
      by_cases h2 : (rest.filter fun x => x.key == k) = []
      · simp [h2]
      · simp [h2]
    · have hfilt : ((m :: rest).filter fun x => x.key == k)
          = rest.filter fun x => x.key == k := by
        simp [List.filter_cons, h]
      rw [List.foldl_cons, ih, hfilt, QL.tableGet_tableAdd, if_neg h]

/-- Helper: the bucket of `buildTable msgs` for key `k` is the sublist of
`msgs` keyed `k` (absent when that sublist is empty). -/
theorem QL.tableGet_buildTable (msgs : List QL.SqlDriverMessageMap) (k : String) :
    QL.tableGet (QL.buildTable msgs) k
      = if (msgs.filter fun m => m.key == k) = [] then none
        else some (msgs.filter fun m => m.key == k) := by
  have h := QL.tableGet_buildAux msgs [] k
  simpa [QL.buildTable, QL.tableGet] using h

/-- Helper: `tableAdd` with a key already present leaves the key list
unchanged. -/
theorem QL.tableAdd_keys_mem (t : QL.Table) (k : String) (m : QL.SqlDriverMessageMap)
    (h : k ∈ t.map Prod.fst) :
    (QL.tableAdd t k m).map Prod.fst = t.map Prod.fst := by
  induction t with
  | nil => simp at h
  | cons e rest ih =>
    obtain ⟨k1, ms⟩ := e
    by_cases h1 : k1 = k
    · simp [QL.tableAdd, h1]
    · have h2 : k ∈ rest.map Prod.fst := by
        rw [List.map_cons] at h
        rcases List.mem_cons.mp h with heq | hm
        · exact absurd heq.symm h1
        · exact hm
      simp [QL.tableAdd, h1, ih h2]

/-- Helper: `tableAdd` with a fresh key appends it to the key list. -/
theorem QL.tableAdd_keys_not_mem (t : QL.Table) (k : String) (m : QL.SqlDriverMessageMap)
    (h : k ∉ t.map Prod.fst) :
    (QL.tableAdd t k m).map Prod.fst = t.map Prod.fst ++ [k] := by
  induction t with
  | nil => simp [QL.tableAdd]
  | cons e rest ih =>
    obtain ⟨k1, ms⟩ := e
    have h1 : ¬k1 = k := by
      intro heq
      exact h (by simp [heq])
    have h2 : k ∉ rest.map Prod.fst := fun hm => h (by simp [hm])
    simp [QL.tableAdd, h1, ih h2]

/-- Helper: `tableAdd` preserves distinctness of the keys. -/
theorem QL.tableAdd_keys_nodup (t : QL.Table) (k : String) (m : QL.SqlDriverMessageMap)
    (h : (t.map Prod.fst).Nodup) :
    ((QL.tableAdd t k m).map Prod.fst).Nodup := by
  by_cases hk : k ∈ t.map Prod.fst
  · rw [QL.tableAdd_keys_mem t k m hk]
    exact h
  · rw [QL.tableAdd_keys_not_mem t k m hk]
    simp [List.nodup_append, h, hk]

/-- Helper: the tables built by the ingest workers have distinct keys. -/
theorem QL.buildTable_keys_nodup (msgs : List QL.SqlDriverMessageMap) :
    ((QL.buildTable msgs).map Prod.fst).Nodup := by
  have aux : ∀ (ms : List QL.SqlDriverMessageMap) (t : QL.Table),
      (t.map Prod.fst).Nodup →
      ((ms.foldl (fun acc m => QL.tableAdd acc m.key m) t).map Prod.fst).Nodup := by
    intro ms
    induction ms with
    | nil => exact fun t h => h
    | cons m rest ih => exact fun t h => ih _ (QL.tableAdd_keys_nodup t m.key m h)
  exact aux msgs [] (by simp)

/-- Helper: in a table with distinct keys, every entry is found by its key. -/
theorem QL.tableGet_of_mem (t : QL.Table) (h : (t.map Prod.fst).Nodup) :
    ∀ e ∈ t, QL.tableGet t e.1 = some e.2 := by
  induction t with
  | nil => intro e he; simp at he
  | cons e1 rest ih =>
    obtain ⟨k1, ms⟩ := e1
    intro e he
    rcases List.mem_cons.mp he with heq | he2
    · subst heq
      simp [QL.tableGet]
    · have hk : ¬k1 = e.1 := by
        intro hkeq
        have hmem : e.1 ∈ rest.map Prod.fst := List.mem_map_of_mem Prod.fst he2
        rw [List.map_cons, List.nodup_cons] at h
        exact h.1 (hkeq ▸ hmem)
      rw [List.map_cons, List.nodup_cons] at h
      simp only [QL.tableGet, if_neg hk]
      exact ih h.2 e he2

/-- Helper: when no pair panics, one left message against a right bucket yields
exactly one output per right message. -/
theorem QL.mergeRowMsgs_length {Node : Type} (conf : QL.JoinMergeConf Node)
    (lm : QL.SqlDriverMessageMap) (rs : List QL.SqlDriverMessageMap)
    (h : ∀ rm ∈ rs, (QL.newJoinedMsg conf lm rm).isSome = true) :
    ∃ o, QL.mergeRowMsgs conf lm rs = some o ∧ o.length = rs.length := by
  induction rs with
  | nil => exact ⟨[], rfl, rfl⟩
  | cons rm rest ih =>
    obtain ⟨msg, hmsg⟩ := Option.isSome_iff_exists.mp (h rm (List.mem_cons_self rm rest))
    obtain ⟨o, ho, hlen⟩ := ih fun x hx => h x (List.mem_cons_of_mem rm hx)
    refine ⟨msg :: o, ?_, by simp [hlen]⟩
    simp [QL.mergeRowMsgs, hmsg, ho]

/-- Helper: when no pair panics, `mergeValueMessages` yields the full cartesian
product — one output per `(lm, rm)` pair. -/
theorem QL.mergeValueMessages_length {Node : Type} (conf : QL.JoinMergeConf Node)
    (ls rs : List QL.SqlDriverMessageMap)
    (h : ∀ lm ∈ ls, ∀ rm ∈ rs, (QL.newJoinedMsg conf lm rm).isSome = true) :
    ∃ o, QL.mergeValueMessages conf ls rs = some o ∧
      o.length = ls.length * rs.length := by
  induction ls with
  | nil => exact ⟨[], rfl, by simp⟩
  | cons lm rest ih =>
    obtain ⟨o1, ho1, hlen1⟩ :=
      QL.mergeRowMsgs_length conf lm rs (h lm (List.mem_cons_self lm rest))
    obtain ⟨o2, ho2, hlen2⟩ := ih fun x hx => h x (List.mem_cons_of_mem lm hx)
    refine ⟨o1 ++ o2, ?_, ?_⟩
    · simp [QL.mergeValueMessages, ho1, ho2]
    · simp only [List.length_append, hlen1, hlen2, List.length_cons]
      ring

/-- Helper: when every per-key contribution succeeds with a known length, the
emission loop succeeds and its output length is the sum of the per-key
lengths. -/
theorem QL.joinMergeEmit_sum {Node : Type} (conf : QL.JoinMergeConf Node)
    (rh : QL.Table) (lh : QL.Table) (f : String × List QL.SqlDriverMessageMap → Nat)
    (h : ∀ e ∈ lh, ∃ o, QL.keyContribution conf rh e = some o ∧ o.length = f e) :
    ∃ total, QL.joinMergeEmit conf rh lh = some total ∧
      total.length = (lh.map f).sum := by
  induction lh with
  | nil => exact ⟨[], rfl, rfl⟩
  | cons e rest ih =>
    obtain ⟨o1, ho1, hlen1⟩ := h e (List.mem_cons_self e rest)
    obtain ⟨o2, ho2, hlen2⟩ := ih fun x hx => h x (List.mem_cons_of_mem e hx)
    refine ⟨o1 ++ o2, ?_, ?_⟩
    · simp [QL.joinMergeEmit, ho1, ho2]
    · simp [hlen1, hlen2]

/-- C3: with both sides fully materialised into their hash tables (and no
column indexing out of range — see the `valIndexing` bounds claim), the rows
produced for a key `k` are the full cartesian product of the per-key buckets:
their number is `|left[k]| * |right[k]|`, each bucket being the sublist of the
side keyed `k`; a key present on only one side contributes no output (one
factor is zero); and the total emission of `JoinMerge.Run` succeeds with
exactly the sum, over the left-table keys, of these per-key products. -/
theorem QL.joinMerge_cartesian_product {Node : Type} (conf : QL.JoinMergeConf Node)
    (L R : List QL.SqlDriverMessageMap)
    (h : ∀ lm ∈ L, ∀ rm ∈ R, (QL.newJoinedMsg conf lm rm).isSome = true)
    (k : String) :
    (∃ outK, QL.keyOutputs conf (QL.buildTable L) (QL.buildTable R) k = some outK ∧
      outK.length = (L.filter fun m => m.key == k).length
        * (R.filter fun m => m.key == k).length) ∧
    (∃ total, QL.joinMergeEmit conf (QL.buildTable R) (QL.buildTable L) = some total ∧
      total.length = ((QL.buildTable L).map fun e =>
        (L.filter fun m => m.key == e.1).length
          * (R.filter fun m => m.key == e.1).length).sum) := by
  have hbucket : ∀ q : String,
      (QL.tableGet (QL.buildTable L) q = none ∧ (L.filter fun m => m.key == q) = []) ∨
      QL.tableGet (QL.buildTable L) q = some (L.filter fun m => m.key == q) := by
    intro q
    rw [QL.tableGet_buildTable]
    by_cases hf : (L.filter fun m => m.key == q) = []
    · exact Or.inl ⟨if_pos hf, hf⟩
    · exact Or.inr (if_neg hf)
  have hbucketR : ∀ q : String,
      (QL.tableGet (QL.buildTable R) q = none ∧ (R.filter fun m => m.key == q) = []) ∨
      QL.tableGet (QL.buildTable R) q = some (R.filter fun m => m.key == q) := by
    intro q
    rw [QL.tableGet_buildTable]
    by_cases hf : (R.filter fun m => m.key == q) = []
    · exact Or.inl ⟨if_pos hf, hf⟩
    · exact Or.inr (if_neg hf)
  have hmerge : ∀ q : String,
      ∃ o, QL.mergeValueMessages conf (L.filter fun m => m.key == q)
          (R.filter fun m => m.key == q) = some o ∧
        o.length = (L.filter fun m => m.key == q).length
          * (R.filter fun m => m.key == q).length := by
    intro q
    exact QL.mergeValueMessages_length conf _ _ fun lm hlm rm hrm =>
      h lm (List.mem_of_mem_filter hlm) rm (List.mem_of_mem_filter hrm)
  constructor
  · rcases hbucket k with ⟨hL, hLf⟩ | hL
    · refine ⟨[], ?_, by simp [hLf]⟩
      simp [QL.keyOutputs, hL]
    · rcases hbucketR k with ⟨hR, hRf⟩ | hR
      · refine ⟨[], ?_, by simp [hRf]⟩
        simp [QL.keyOutputs, hL, hR]
      · obtain ⟨o, ho, hlen⟩ := hmerge k
        refine ⟨o, ?_, hlen⟩
        simp [QL.keyOutputs, hL, hR, ho]
  · refine QL.joinMergeEmit_sum conf (QL.buildTable R) (QL.buildTable L) _ ?_
    intro e he
    have hkey : e.2 = L.filter fun m => m.key == e.1 := by
      have hget := QL.tableGet_of_mem (QL.buildTable L) (QL.buildTable_keys_nodup L) e he
      rcases hbucket e.1 with ⟨hL, _⟩ | hL
      · rw [hget] at hL
        exact absurd hL (by simp)
      · rw [hget] at hL
        exact Option.some_injective _ hL
    rcases hbucketR e.1 with ⟨hR, hRf⟩ | hR
    · refine ⟨[], ?_, by simp [hRf]⟩
      simp [QL.keyContribution, hR]
    · obtain ⟨o, ho, hlen⟩ := hmerge e.1
      refine ⟨o, ?_, hlen⟩
      simp [QL.keyContribution, hR, hkey, ho]

/-- C3 witness: the cardinality scenario of the spec.  Left
`[{k:"x",v:1},{k:"x",v:2}]`, right `[{k:"x",v:9},{k:"x",v:8},{k:"y",v:0}]`:
the rows produced for key `"x"` number `2 * 2 = 4`, and the whole emission has
exactly the per-key product sum. -/
theorem QL.joinMerge_cartesian_product_witness :
    (∃ outK, QL.keyOutputs QL.exMergeConf (QL.buildTable QL.exMergeLeft)
        (QL.buildTable QL.exMergeRight) "x" = some outK ∧
      outK.length = (QL.exMergeLeft.filter fun m => m.key == "x").length
        * (QL.exMergeRight.filter fun m => m.key == "x").length) ∧
    (∃ total, QL.joinMergeEmit QL.exMergeConf (QL.buildTable QL.exMergeRight)
        (QL.buildTable QL.exMergeLeft) = some total ∧
      total.length = ((QL.buildTable QL.exMergeLeft).map fun e =>
        (QL.exMergeLeft.filter fun m => m.key == e.1).length
          * (QL.exMergeRight.filter fun m => m.key == e.1).length).sum) :=
  QL.joinMerge_cartesian_product QL.exMergeConf QL.exMergeLeft QL.exMergeRight
    (by decide) "x"
